import Mathlib

/-!
# Verification of the batched linear-algebra kernels in `elastica/_linalg.py`

This file gives a shallow embedding of `src/elastica/_linalg.py` and proves the
specification's claims about it.

An n-dimensional numpy array is modelled as a `shape` together with a total map
from index tuples to rational entries (float arithmetic is idealized as exact
arithmetic over `ℚ`; entries at out-of-bounds index tuples are irrelevant junk).
Each `np.einsum` call in the source is embedded as the contraction its subscript
string denotes, including numpy's behaviour on bad operands: a labelled axis
whose sizes disagree may still broadcast when one of the sizes is 1 (numpy
resolves labelled dimensions with broadcasting rules); a genuinely
non-broadcastable disagreement, or an operand whose rank does not match its
subscripts, raises `ValueError`.  All such failures are embedded as a single
`ShapeMismatchError` value carrying diagnostic shapes, and fallible kernels
return `Except ShapeMismatchError NDArray`.
-/

namespace Elastica

/-- A numpy ndarray: a shape plus entries indexed by index tuples. -/
structure NDArray where
  shape : List ℕ
  data : List ℕ → ℚ

/-- The single failure kind of the kernels: an operand shape check failed.
`expected` is the shape the offending operand should have had (empty when a
rank mismatch leaves no meaningful expectation), `actual` its real shape. -/
structure ShapeMismatchError where
  expected : List ℕ
  actual : List ℕ
deriving DecidableEq

/-- Pointwise negation of an array (same shape). -/
def ndNeg (w : NDArray) : NDArray := ⟨w.shape, fun idx => -(w.data idx)⟩

/-- Resolution of one einsum label across two operand axis sizes, following
numpy broadcasting: equal sizes agree, a size of 1 broadcasts to the other,
anything else is an error. -/
def bcDim (a b : ℕ) : Option ℕ :=
  if a = b then some a else if a = 1 then some b else if b = 1 then some a else none

/-- Index adjustment for a broadcast axis: an axis of size 1 is always read at 0. -/
def bIdx (size i : ℕ) : ℕ := if size = 1 then 0 else i

-- Helper for `perm_parity`: number of inversions of a list.
def inv_count : List ℕ → ℕ
  | [] => 0
  | x :: xs => (xs.filter fun y => decide (y < x)).length + inv_count xs

/-- Modelled from the spec: `perm_parity` (the spec's PermutationParity
collaborator) lives in `elastica/utils.py`, which is not among the sources.
Per the spec it maps a permutation of `0..d-1` to its sign: +1 for an even
permutation, -1 for an odd one; here the sign is computed as the parity of
the inversion count. -/
def perm_parity (l : List ℕ) : ℤ := (-1) ^ inv_count l

/-- One assignment step `epsilon[index_tup] = perm_parity(list(index_tup))`
of `levi_civita_tensor`, as an update of the entry map. -/
def lct_assign (f : List ℕ → ℚ) (index_tup : List ℕ) : List ℕ → ℚ :=
  fun idx => if idx = index_tup then ((perm_parity index_tup : ℤ) : ℚ) else f idx

/-- Embeds `levi_civita_tensor(dim)` (without its `@functools.lru_cache`,
which is modelled separately by `lct_cache_call`): start from
`np.zeros((dim,) * dim)` and assign, for every permutation of `range(dim)`,
the parity of that index tuple. -/
def levi_civita_tensor (dim : ℕ) : NDArray :=
  ⟨List.replicate dim dim,
    (List.range dim).permutations.foldl lct_assign (fun _ => 0)⟩

/-- The `@functools.lru_cache(maxsize=1)` wrapper on `levi_civita_tensor`:
a single-slot cache.  Given the cache state and the requested `dim`, return
the tensor and the new cache state. -/
def lct_cache_call : Option (ℕ × NDArray) → ℕ → NDArray × Option (ℕ × NDArray)
  | some (d0, t), d =>
      if d = d0 then (t, some (d0, t))
      else (levi_civita_tensor d, some (d, levi_civita_tensor d))
  | none, d => (levi_civita_tensor d, some (d, levi_civita_tensor d))

/-- Cache state after a history of calls, starting from the empty cache. -/
def lct_cache_run (hist : List ℕ) : Option (ℕ × NDArray) :=
  hist.foldl (fun s d => (lct_cache_call s d).2) none

/-- Embeds `_batch_matvec`, i.e. `np.einsum("ijk,jk->ik", m, v)`. -/
def _batch_matvec (matrix_collection vector_collection : NDArray) :
    Except ShapeMismatchError NDArray :=
  match matrix_collection.shape, vector_collection.shape with
  | [i, j, k], [j2, k2] =>
    match bcDim j j2, bcDim k k2 with
    | some jd, some kd =>
      .ok ⟨[i, kd], fun idx =>
        match idx with
        | [a, c] => ∑ b ∈ Finset.range jd,
            matrix_collection.data [a, bIdx j b, bIdx k c]
              * vector_collection.data [bIdx j2 b, bIdx k2 c]
        | _ => 0⟩
    | _, _ => .error ⟨[j, k], [j2, k2]⟩
  | [_, _, _], vs => .error ⟨[], vs⟩
  | ms, _ => .error ⟨[], ms⟩

/-- Embeds `_batch_matmul`, i.e. `np.einsum("ijk,jlk->ilk", A, B)`. -/
def _batch_matmul (first_matrix_collection second_matrix_collection : NDArray) :
    Except ShapeMismatchError NDArray :=
  match first_matrix_collection.shape, second_matrix_collection.shape with
  | [i, j, k], [j2, l, k2] =>
    match bcDim j j2, bcDim k k2 with
    | some jd, some kd =>
      .ok ⟨[i, l, kd], fun idx =>
        match idx with
        | [a, c, e] => ∑ b ∈ Finset.range jd,
            first_matrix_collection.data [a, bIdx j b, bIdx k e]
              * second_matrix_collection.data [bIdx j2 b, c, bIdx k2 e]
        | _ => 0⟩
    | _, _ => .error ⟨[j, l, k], [j2, l, k2]⟩
  | [_, _, _], vs => .error ⟨[], vs⟩
  | ms, _ => .error ⟨[], ms⟩

/-- Embeds `_batch_cross`, i.e.
`np.einsum("ijk,jl,kl->il", levi_civita_tensor(u.shape[0]), u, v)`.
The tensor operand is bound to subscripts `ijk`, so its rank (which equals
`u.shape[0]`) must be 3 or numpy rejects the operand. -/
def _batch_cross (first_vector_collection second_vector_collection : NDArray) :
    Except ShapeMismatchError NDArray :=
  match first_vector_collection.shape, second_vector_collection.shape with
  | du :: urest, vshape =>
    let eps := levi_civita_tensor du
    match eps.shape, urest, vshape with
    | [i, j, k], [l], [k2, l2] =>
      match bcDim j du, bcDim k k2, bcDim l l2 with
      | some jd, some kd, some ld =>
        .ok ⟨[i, ld], fun idx =>
          match idx with
          | [a, c] => ∑ b ∈ Finset.range jd, ∑ e ∈ Finset.range kd,
              eps.data [a, bIdx j b, bIdx k e]
                * first_vector_collection.data [bIdx du b, bIdx l c]
                * second_vector_collection.data [bIdx k2 e, bIdx l2 c]
          | _ => 0⟩
      | _, _, _ => .error ⟨[k, l], [k2, l2]⟩
    | [_, _, _], [_], vs => .error ⟨[], vs⟩
    | [_, _, _], ur, _ => .error ⟨[], du :: ur⟩
    | es, _, _ => .error ⟨[], es⟩
  | [], _ => .error ⟨[], []⟩

/-- An array of the given shape filled with ones. -/
def ones (s : List ℕ) : NDArray := ⟨s, fun _ => 1⟩

/-- The `d = 3, N = 1` batch holding the single vector `e₁ = (1,0,0)`. -/
def ex_u : NDArray := ⟨[3, 1], fun idx => if idx = [0, 0] then 1 else 0⟩

/-- The `d = 3, N = 1` batch holding the single vector `e₂ = (0,1,0)`. -/
def ex_v : NDArray := ⟨[3, 1], fun idx => if idx = [1, 0] then 1 else 0⟩

/-- The index tuple read off from a function `Fin d → Fin d`. -/
def tupleOf (d : ℕ) (g : Fin d → Fin d) : List ℕ := List.ofFn fun i => (g i : ℕ)

/-- Integer-valued core of the Levi-Civita tensor: the entry the construction
leaves at a given index tuple. -/
def lctZ (dim : ℕ) (idx : List ℕ) : ℤ :=
  if List.Perm idx (List.range dim) then perm_parity idx else 0

/-- A non-broadcastable disagreement of two axis sizes. -/
def strictMismatch (a b : ℕ) : Prop := a ≠ b ∧ a ≠ 1 ∧ b ≠ 1

instance (a b : ℕ) : Decidable (strictMismatch a b) := by
  unfold strictMismatch; infer_instance

/-! ### Helper lemmas -/

lemma bcDim_self (a : ℕ) : bcDim a a = some a := by simp [bcDim]

lemma bcDim_none {a b : ℕ} (h : strictMismatch a b) : bcDim a b = none := by
  obtain ⟨h1, h2, h3⟩ := h
  simp [bcDim, h1, h2, h3]

lemma bIdx_lt {n i : ℕ} (h : i < n) : bIdx n i = i := by
  rcases eq_or_ne n 1 with h1 | h1
  · subst h1; interval_cases i; rfl
  · simp [bIdx, h1]

lemma bIdx_bIdx (n i : ℕ) : bIdx n (bIdx n i) = bIdx n i := by
  by_cases h : n = 1 <;> simp [bIdx, h]

lemma lct_shape (dim : ℕ) : (levi_civita_tensor dim).shape = List.replicate dim dim := rfl

lemma lct_foldl (L : List (List ℕ)) (f0 : List ℕ → ℚ) (idx : List ℕ) :
    (L.foldl lct_assign f0) idx
      = if idx ∈ L then ((perm_parity idx : ℤ) : ℚ) else f0 idx := by
  induction L generalizing f0 with
  | nil => simp
  | cons t L ih =>
      rw [List.foldl_cons, ih]
      by_cases h : idx ∈ L
      · rw [if_pos h, if_pos (List.mem_cons.mpr (Or.inr h))]
      · rw [if_neg h]
        unfold lct_assign
        by_cases h2 : idx = t
        · subst h2
          rw [if_pos rfl, if_pos (List.mem_cons.mpr (Or.inl rfl))]
        · rw [if_neg h2, if_neg (by simp [List.mem_cons, h, h2])]

/-- The entry of the built tensor at any index tuple is its integer core. -/
lemma lct_data (dim : ℕ) (idx : List ℕ) :
    (levi_civita_tensor dim).data idx = ((lctZ dim idx : ℤ) : ℚ) := by
  have h1 : (levi_civita_tensor dim).data idx
      = ((List.range dim).permutations.foldl lct_assign (fun _ => 0)) idx := rfl
  rw [h1, lct_foldl]
  unfold lctZ
  by_cases h : List.Perm idx (List.range dim)
  · rw [if_pos (List.mem_permutations.mpr h), if_pos h]
  · rw [if_neg (fun hm => h (List.mem_permutations.mp hm)), if_neg h]
    simp

lemma not_perm_range_of_ge {l : List ℕ} {d x : ℕ} (hx : x ∈ l) (hdx : d ≤ x) :
    ¬ List.Perm l (List.range d) := fun hp =>
  absurd (List.mem_range.mp (hp.subset hx)) (Nat.not_lt.mpr hdx)

/-- Antisymmetry of the `d = 3` tensor in its last two indices, for arbitrary
(possibly out-of-range) index tuples. -/
lemma lct3_swap23 (a b e : ℕ) :
    (levi_civita_tensor 3).data [a, e, b] = -((levi_civita_tensor 3).data [a, b, e]) := by
  rw [lct_data, lct_data, ← Int.cast_neg, Int.cast_inj]
  by_cases ha : a < 3
  · by_cases hb : b < 3
    · by_cases he : e < 3
      · interval_cases a <;> interval_cases b <;> interval_cases e <;> decide
      · rw [lctZ, lctZ,
          if_neg (not_perm_range_of_ge (by simp) (Nat.le_of_not_lt he)),
          if_neg (not_perm_range_of_ge (by simp) (Nat.le_of_not_lt he))]
        simp
    · rw [lctZ, lctZ,
        if_neg (not_perm_range_of_ge (by simp) (Nat.le_of_not_lt hb)),
        if_neg (not_perm_range_of_ge (by simp) (Nat.le_of_not_lt hb))]
      simp
  · rw [lctZ, lctZ,
      if_neg (not_perm_range_of_ge (by simp) (Nat.le_of_not_lt ha)),
      if_neg (not_perm_range_of_ge (by simp) (Nat.le_of_not_lt ha))]
    simp

/-- Validity of a cache state: whatever is stored is the tensor for its key. -/
def cacheOK (s : Option (ℕ × NDArray)) : Prop :=
  ∀ d0 t, s = some (d0, t) → t = levi_civita_tensor d0

lemma call_fst {s : Option (ℕ × NDArray)} (hs : cacheOK s) (d : ℕ) :
    (lct_cache_call s d).1 = levi_civita_tensor d := by
  rcases s with _ | ⟨d0, t⟩
  · rfl
  · have he : lct_cache_call (some (d0, t)) d
        = if d = d0 then (t, some (d0, t))
          else (levi_civita_tensor d, some (d, levi_civita_tensor d)) := rfl
    rw [he]
    by_cases h : d = d0
    · subst h
      rw [if_pos rfl]
      exact hs d t rfl
    · rw [if_neg h]

lemma cacheOK_step {s : Option (ℕ × NDArray)} (hs : cacheOK s) (d : ℕ) :
    cacheOK (lct_cache_call s d).2 := by
  rcases s with _ | ⟨d0, t⟩
  · intro d1 t1 h1
    replace h1 : some (d, levi_civita_tensor d) = some (d1, t1) := h1
    injection h1 with h2
    injection h2 with h3 h4
    subst h3
    exact h4.symm
  · by_cases h : d = d0
    · subst h
      intro d1 t1 h1
      replace h1 : some (d, t) = some (d1, t1) := by
        simpa [lct_cache_call] using h1
      injection h1 with h2
      injection h2 with h3 h4
      subst h3
      subst h4
      exact hs d t rfl
    · intro d1 t1 h1
      replace h1 : some (d, levi_civita_tensor d) = some (d1, t1) := by
        simpa [lct_cache_call, h] using h1
      injection h1 with h2
      injection h2 with h3 h4
      subst h3
      exact h4.symm

lemma foldl_cacheOK (hist : List ℕ) :
    ∀ s, cacheOK s → cacheOK (hist.foldl (fun s d => (lct_cache_call s d).2) s) := by
  induction hist with
  | nil => exact fun s hs => hs
  | cons h t ih => exact fun s hs => ih _ (cacheOK_step hs h)

lemma run_cacheOK (hist : List ℕ) : cacheOK (lct_cache_run hist) :=
  foldl_cacheOK hist none (fun d0 t h => by cases h)

/-- Success-case evaluation of `_batch_matvec`. -/
lemma matvec_eq_ok (m v : NDArray) (i j k j2 k2 jd kd : ℕ)
    (hm : m.shape = [i, j, k]) (hv : v.shape = [j2, k2])
    (hj : bcDim j j2 = some jd) (hk : bcDim k k2 = some kd) :
    _batch_matvec m v = .ok ⟨[i, kd], fun idx =>
      match idx with
      | [a, c] => ∑ b ∈ Finset.range jd,
          m.data [a, bIdx j b, bIdx k c] * v.data [bIdx j2 b, bIdx k2 c]
      | _ => 0⟩ := by
  unfold _batch_matvec
  rw [hm, hv]
  simp only [hj, hk]

/-- Success-case evaluation of `_batch_matmul`. -/
lemma matmul_eq_ok (A B : NDArray) (i j k j2 l k2 jd kd : ℕ)
    (hA : A.shape = [i, j, k]) (hB : B.shape = [j2, l, k2])
    (hj : bcDim j j2 = some jd) (hk : bcDim k k2 = some kd) :
    _batch_matmul A B = .ok ⟨[i, l, kd], fun idx =>
      match idx with
      | [a, c, e] => ∑ b ∈ Finset.range jd,
          A.data [a, bIdx j b, bIdx k e] * B.data [bIdx j2 b, c, bIdx k2 e]
      | _ => 0⟩ := by
  unfold _batch_matmul
  rw [hA, hB]
  simp only [hj, hk]

/-- Success-case evaluation of `_batch_cross` (the first operand must have
first axis 3, so that the rank of the Levi-Civita tensor fits `ijk`). -/
lemma cross_eq_ok (u v : NDArray) (l k2 l2 kd ld : ℕ)
    (hu : u.shape = [3, l]) (hv : v.shape = [k2, l2])
    (hk : bcDim 3 k2 = some kd) (hl : bcDim l l2 = some ld) :
    _batch_cross u v = .ok ⟨[3, ld], fun idx =>
      match idx with
      | [a, c] => ∑ b ∈ Finset.range 3, ∑ e ∈ Finset.range kd,
          (levi_civita_tensor 3).data [a, bIdx 3 b, bIdx 3 e]
            * u.data [bIdx 3 b, bIdx l c]
            * v.data [bIdx k2 e, bIdx l2 c]
      | _ => 0⟩ := by
  unfold _batch_cross
  rw [hu, hv]
  simp only [lct_shape, List.replicate, bcDim_self, hk, hl]

/-! ### Claims -/

/-- C3: for every matrix batch of shape `(d, d, N)` and vector batch of shape
`(d, N)`, `_batch_matvec` returns a vector batch of shape `(d, N)` with
`out[i,k] = Σ_j matrices[i,j,k] * vectors[j,k]`, the ordinary matrix-vector
product applied independently per slot `k`. -/
theorem c3_batch_matvec_semantics (m v : NDArray) (d N : ℕ)
    (hm : m.shape = [d, d, N]) (hv : v.shape = [d, N]) :
    ∃ w, _batch_matvec m v = .ok w ∧ w.shape = [d, N] ∧
      ∀ i k, i < d → k < N →
        w.data [i, k] = ∑ j ∈ Finset.range d, m.data [i, j, k] * v.data [j, k] := by
  refine ⟨_, matvec_eq_ok m v d d N d N d N hm hv (bcDim_self d) (bcDim_self N), rfl, ?_⟩
  intro i k hi hk
  show (∑ b ∈ Finset.range d, m.data [i, bIdx d b, bIdx N k] * v.data [bIdx d b, bIdx N k]) = _
  refine Finset.sum_congr rfl fun b hb => ?_
  rw [bIdx_lt (Finset.mem_range.mp hb), bIdx_lt hk]

/-- Witness for C3 at `d = 3, N = 2`. -/
theorem c3_batch_matvec_semantics_witness :
    ∃ w, _batch_matvec (ones [3, 3, 2]) (ones [3, 2]) = .ok w ∧ w.shape = [3, 2] ∧
      ∀ i k, i < 3 → k < 2 →
        w.data [i, k] = ∑ j ∈ Finset.range 3,
          (ones [3, 3, 2]).data [i, j, k] * (ones [3, 2]).data [j, k] :=
  c3_batch_matvec_semantics (ones [3, 3, 2]) (ones [3, 2]) 3 2 rfl rfl

/-- C4: for every pair of matrix batches of shape `(d, d, N)`, `_batch_matmul`
returns a matrix batch of shape `(d, d, N)` with
`out[i,l,k] = Σ_j A[i,j,k] * B[j,l,k]`, the ordinary matrix product applied
independently per slot `k`. -/
theorem c4_batch_matmul_semantics (A B : NDArray) (d N : ℕ)
    (hA : A.shape = [d, d, N]) (hB : B.shape = [d, d, N]) :
    ∃ w, _batch_matmul A B = .ok w ∧ w.shape = [d, d, N] ∧
      ∀ i l k, i < d → l < d → k < N →
        w.data [i, l, k] = ∑ j ∈ Finset.range d, A.data [i, j, k] * B.data [j, l, k] := by
  refine ⟨_, matmul_eq_ok A B d d N d d N d N hA hB (bcDim_self d) (bcDim_self N), rfl, ?_⟩
  intro i l k hi hl hk
  show (∑ b ∈ Finset.range d, A.data [i, bIdx d b, bIdx N k] * B.data [bIdx d b, l, bIdx N k])
      = _
  refine Finset.sum_congr rfl fun b hb => ?_
  rw [bIdx_lt (Finset.mem_range.mp hb), bIdx_lt hk]

/-- Witness for C4 at `d = 2, N = 1`. -/
theorem c4_batch_matmul_semantics_witness :
    ∃ w, _batch_matmul (ones [2, 2, 1]) (ones [2, 2, 1]) = .ok w ∧ w.shape = [2, 2, 1] ∧
      ∀ i l k, i < 2 → l < 2 → k < 1 →
        w.data [i, l, k] = ∑ j ∈ Finset.range 2,
          (ones [2, 2, 1]).data [i, j, k] * (ones [2, 2, 1]).data [j, l, k] :=
  c4_batch_matmul_semantics (ones [2, 2, 1]) (ones [2, 2, 1]) 2 1 rfl rfl

/-- C1 (counterexample): the claim promises the Levi-Civita contraction for
every dimension `d`, but at `d = 2` the tensor has rank 2 and cannot be bound
to the three subscripts `ijk`, so `_batch_cross` fails instead of returning a
`(2, 1)` batch. -/
theorem c1_cex_dim2_fails :
    _batch_cross (ones [2, 1]) (ones [2, 1]) = .error ⟨[], [2, 2]⟩ := rfl

/-- C1 (amended): the generalized-contraction semantics holds exactly when the
first operand's leading axis is 3 (the only dimension whose Levi-Civita tensor
has the rank demanded by the subscripts `ijk`): for vector batches of shape
`(3, N)`, `_batch_cross` returns a `(3, N)` batch with
`out[i,k] = Σ_{j,l} ε[i,j,l] * u[j,k] * v[l,k]`, `ε` being the tensor from
`levi_civita_tensor 3`; for other dimensions the call fails. -/
theorem c1_batch_cross_semantics_dim3 (u v : NDArray) (N : ℕ)
    (hu : u.shape = [3, N]) (hv : v.shape = [3, N]) :
    ∃ w, _batch_cross u v = .ok w ∧ w.shape = [3, N] ∧
      ∀ i k, i < 3 → k < N →
        w.data [i, k] = ∑ j ∈ Finset.range 3, ∑ l ∈ Finset.range 3,
          (levi_civita_tensor 3).data [i, j, l] * u.data [j, k] * v.data [l, k] := by
  refine ⟨_, cross_eq_ok u v N 3 N 3 N hu hv (bcDim_self 3) (bcDim_self N), rfl, ?_⟩
  intro i k hi hk
  show (∑ b ∈ Finset.range 3, ∑ e ∈ Finset.range 3,
      (levi_civita_tensor 3).data [i, bIdx 3 b, bIdx 3 e]
        * u.data [bIdx 3 b, bIdx N k] * v.data [bIdx 3 e, bIdx N k]) = _
  refine Finset.sum_congr rfl fun b hb => Finset.sum_congr rfl fun e he => ?_
  rw [bIdx_lt (Finset.mem_range.mp hb), bIdx_lt (Finset.mem_range.mp he), bIdx_lt hk]

/-- Witness for amended C1: the spec scenario `d = 3, N = 1`,
`u = e₁`, `v = e₂`. -/
theorem c1_batch_cross_semantics_dim3_witness :
    ∃ w, _batch_cross ex_u ex_v = .ok w ∧ w.shape = [3, 1] ∧
      ∀ i k, i < 3 → k < 1 →
        w.data [i, k] = ∑ j ∈ Finset.range 3, ∑ l ∈ Finset.range 3,
          (levi_civita_tensor 3).data [i, j, l] * ex_u.data [j, k] * ex_v.data [l, k] :=
  c1_batch_cross_semantics_dim3 ex_u ex_v 1 rfl rfl

/-- C9: `_batch_matvec` does not enforce squareness of the matrix batch: on a
`(p, q, N)` matrix collection with `p ≠ q` and a `(q, N)` vector collection it
succeeds and returns a `(p, N)` array with the same contraction semantics. -/
theorem c9_batch_matvec_nonsquare (m v : NDArray) (p q N : ℕ) (hpq : p ≠ q)
    (hm : m.shape = [p, q, N]) (hv : v.shape = [q, N]) :
    ∃ w, _batch_matvec m v = .ok w ∧ w.shape = [p, N] ∧
      ∀ i k, i < p → k < N →
        w.data [i, k] = ∑ j ∈ Finset.range q, m.data [i, j, k] * v.data [j, k] := by
  refine ⟨_, matvec_eq_ok m v p q N q N q N hm hv (bcDim_self q) (bcDim_self N), rfl, ?_⟩
  intro i k hi hk
  show (∑ b ∈ Finset.range q, m.data [i, bIdx q b, bIdx N k] * v.data [bIdx q b, bIdx N k]) = _
  refine Finset.sum_congr rfl fun b hb => ?_
  rw [bIdx_lt (Finset.mem_range.mp hb), bIdx_lt hk]

/-- Witness for C9 at `p = 2, q = 3, N = 1`. -/
theorem c9_batch_matvec_nonsquare_witness :
    ∃ w, _batch_matvec (ones [2, 3, 1]) (ones [3, 1]) = .ok w ∧ w.shape = [2, 1] ∧
      ∀ i k, i < 2 → k < 1 →
        w.data [i, k] = ∑ j ∈ Finset.range 3,
          (ones [2, 3, 1]).data [i, j, k] * (ones [3, 1]).data [j, k] :=
  c9_batch_matvec_nonsquare (ones [2, 3, 1]) (ones [3, 1]) 2 3 1 (by decide) rfl rfl

/-- C10: with block size `N = 0` every kernel succeeds with an empty output of
the expected shape rather than failing. -/
theorem c10_empty_blocksize (d : ℕ) (m v A B u w : NDArray)
    (hm : m.shape = [d, d, 0]) (hv : v.shape = [d, 0])
    (hA : A.shape = [d, d, 0]) (hB : B.shape = [d, d, 0])
    (hu : u.shape = [3, 0]) (hw : w.shape = [3, 0]) :
    (∃ r, _batch_matvec m v = .ok r ∧ r.shape = [d, 0])
    ∧ (∃ r, _batch_matmul A B = .ok r ∧ r.shape = [d, d, 0])
    ∧ (∃ r, _batch_cross u w = .ok r ∧ r.shape = [3, 0]) := by
  refine ⟨⟨_, matvec_eq_ok m v d d 0 d 0 d 0 hm hv (bcDim_self d) (bcDim_self 0), rfl⟩,
    ⟨_, matmul_eq_ok A B d d 0 d d 0 d 0 hA hB (bcDim_self d) (bcDim_self 0), rfl⟩,
    ⟨_, cross_eq_ok u w 0 3 0 3 0 hu hw (bcDim_self 3) (bcDim_self 0), rfl⟩⟩

/-- Witness for C10 at `d = 3`. -/
theorem c10_empty_blocksize_witness :
    (∃ r, _batch_matvec (ones [3, 3, 0]) (ones [3, 0]) = .ok r ∧ r.shape = [3, 0])
    ∧ (∃ r, _batch_matmul (ones [3, 3, 0]) (ones [3, 3, 0]) = .ok r ∧ r.shape = [3, 3, 0])
    ∧ (∃ r, _batch_cross (ones [3, 0]) (ones [3, 0]) = .ok r ∧ r.shape = [3, 0]) :=
  c10_empty_blocksize 3 (ones [3, 3, 0]) (ones [3, 0]) (ones [3, 3, 0]) (ones [3, 3, 0])
    (ones [3, 0]) (ones [3, 0]) rfl rfl rfl rfl rfl rfl

/-- C2 (counterexample): matrices of shape `(3, 3, 5)` and vectors of shape
`(3, 1)` disagree on block size `N` (5 vs 1), yet the call succeeds — numpy
broadcasts the size-1 axis — returning a `(3, 5)` array instead of raising. -/
theorem c2_cex_broadcast_succeeds :
    Except.map NDArray.shape (_batch_matvec (ones [3, 3, 5]) (ones [3, 1])) = .ok [3, 5] := rfl

/-- C2 (amended): a kernel call whose operand shapes disagree on dimension `d`
or block size `N` fails with a `ShapeMismatchError` carrying the expected and
actual shapes, provided the disagreement is not broadcastable (neither of the
two disagreeing sizes is 1); a size-1 disagreement instead broadcasts and the
call succeeds.  The spec scenario `(3,3,5)` vs `(3,4)` is a non-broadcastable
disagreement and raises (see the witness). -/
theorem c2_shape_mismatch_raises :
    (∀ (m v : NDArray) (i j k j2 k2 : ℕ), m.shape = [i, j, k] → v.shape = [j2, k2] →
        strictMismatch j j2 ∨ strictMismatch k k2 →
        _batch_matvec m v = .error ⟨[j, k], [j2, k2]⟩)
    ∧ (∀ (A B : NDArray) (i j k j2 l k2 : ℕ), A.shape = [i, j, k] → B.shape = [j2, l, k2] →
        strictMismatch j j2 ∨ strictMismatch k k2 →
        _batch_matmul A B = .error ⟨[j, l, k], [j2, l, k2]⟩)
    ∧ (∀ (u v : NDArray) (l k2 l2 : ℕ), u.shape = [3, l] → v.shape = [k2, l2] →
        strictMismatch 3 k2 ∨ strictMismatch l l2 →
        _batch_cross u v = .error ⟨[3, l], [k2, l2]⟩) := by
  refine ⟨?_, ?_, ?_⟩
  · intro m v i j k j2 k2 hm hv h
    rcases h with h | h
    · simp only [_batch_matvec, hm, hv, bcDim_none h]
    · simp only [_batch_matvec, hm, hv, bcDim_none h]
      cases bcDim j j2 <;> rfl
  · intro A B i j k j2 l k2 hA hB h
    rcases h with h | h
    · simp only [_batch_matmul, hA, hB, bcDim_none h]
    · simp only [_batch_matmul, hA, hB, bcDim_none h]
      cases bcDim j j2 <;> rfl
  · intro u v l k2 l2 hu hv h
    rcases h with h | h
    · simp only [_batch_cross, hu, hv, lct_shape, List.replicate, bcDim_self, bcDim_none h]
    · simp only [_batch_cross, hu, hv, lct_shape, List.replicate, bcDim_self, bcDim_none h]
      cases bcDim 3 k2 <;> rfl

/-- Witness for amended C2: the spec scenario `(3,3,5)` vs `(3,4)` for
`_batch_matvec`, plus a `d` disagreement for `_batch_matmul` and a
first-axis disagreement for `_batch_cross`; each reports expected vs actual. -/
theorem c2_shape_mismatch_raises_witness :
    _batch_matvec (ones [3, 3, 5]) (ones [3, 4]) = .error ⟨[3, 5], [3, 4]⟩
    ∧ _batch_matmul (ones [3, 3, 5]) (ones [2, 3, 5]) = .error ⟨[3, 3, 5], [2, 3, 5]⟩
    ∧ _batch_cross (ones [3, 2]) (ones [4, 2]) = .error ⟨[3, 2], [4, 2]⟩ :=
  ⟨c2_shape_mismatch_raises.1 (ones [3, 3, 5]) (ones [3, 4]) 3 3 5 3 4 rfl rfl
      (Or.inr (by decide)),
    c2_shape_mismatch_raises.2.1 (ones [3, 3, 5]) (ones [2, 3, 5]) 3 3 5 2 3 5 rfl rfl
      (Or.inl (by decide)),
    c2_shape_mismatch_raises.2.2 (ones [3, 2]) (ones [4, 2]) 2 4 2 rfl rfl
      (Or.inl (by decide))⟩

/-- C6: the tensor returned through the single-slot cache never depends on the
history of prior calls (so requesting `d1`, then `d2 ≠ d1`, then `d1` again
reproduces the first `d1` tensor exactly), and a call that hits the cache
returns the stored tensor unchanged. -/
theorem c6_cache_history_independent :
    (∀ (hist : List ℕ) (d : ℕ),
        (lct_cache_call (lct_cache_run hist) d).1 = levi_civita_tensor d)
    ∧ (∀ (d : ℕ) (t : NDArray), (lct_cache_call (some (d, t)) d).1 = t) := by
  constructor
  · intro hist d
    exact call_fst (run_cacheOK hist) d
  · intro d t
    simp [lct_cache_call]

lemma bIdx_three (b : ℕ) : bIdx 3 b = b := rfl

lemma replicate_add_four (n x : ℕ) :
    List.replicate (n + 4) x = x :: x :: x :: x :: List.replicate n x := rfl

/-- C7: for vector batches `u`, `v` of one common shape `(d, N)`,
`_batch_cross u v` is the pointwise negation of `_batch_cross v u` (and when
the call fails, it fails identically on both orders, so the equation lifted
through `Except.map` holds for every `d`). -/
theorem c7_batch_cross_anticommutative (u v : NDArray) (d N : ℕ)
    (hu : u.shape = [d, N]) (hv : v.shape = [d, N]) :
    _batch_cross u v = Except.map ndNeg (_batch_cross v u) := by
  rcases d with _ | _ | _ | _ | n
  · simp only [_batch_cross, hu, hv, lct_shape, List.replicate]
    rfl
  · simp only [_batch_cross, hu, hv, lct_shape, List.replicate]
    rfl
  · simp only [_batch_cross, hu, hv, lct_shape, List.replicate]
    rfl
  · rw [cross_eq_ok u v N 3 N 3 N hu hv (bcDim_self 3) (bcDim_self N),
      cross_eq_ok v u N 3 N 3 N hv hu (bcDim_self 3) (bcDim_self N)]
    show _ = Except.ok (ndNeg _)
    refine congrArg Except.ok ?_
    show (⟨[3, N], _⟩ : NDArray) = ⟨[3, N], _⟩
    refine congrArg (NDArray.mk [3, N]) ?_
    funext idx
    rcases idx with _ | ⟨a, _ | ⟨c, _ | ⟨x, rest⟩⟩⟩
    · simp
    · simp
    · show (∑ b ∈ Finset.range 3, ∑ e ∈ Finset.range 3,
          (levi_civita_tensor 3).data [a, bIdx 3 b, bIdx 3 e]
            * u.data [bIdx 3 b, bIdx N c] * v.data [bIdx 3 e, bIdx N c])
        = -(∑ b ∈ Finset.range 3, ∑ e ∈ Finset.range 3,
          (levi_civita_tensor 3).data [a, bIdx 3 b, bIdx 3 e]
            * v.data [bIdx 3 b, bIdx N c] * u.data [bIdx 3 e, bIdx N c])
      simp only [bIdx_three]
      have h2 : (∑ b ∈ Finset.range 3, ∑ e ∈ Finset.range 3,
          (levi_civita_tensor 3).data [a, b, e]
            * v.data [b, bIdx N c] * u.data [e, bIdx N c])
          = ∑ b ∈ Finset.range 3, ∑ e ∈ Finset.range 3,
            -((levi_civita_tensor 3).data [a, b, e]
              * u.data [b, bIdx N c] * v.data [e, bIdx N c]) := by
        rw [Finset.sum_comm]
        refine Finset.sum_congr rfl fun b hb => Finset.sum_congr rfl fun e he => ?_
        rw [lct3_swap23 a b e]
        ring
      rw [h2]
      simp
    · simp
  · simp only [_batch_cross, hu, hv, lct_shape, replicate_add_four]
    rfl

/-- Witness for C7 at the concrete `(3, 1)` batches `e₁`, `e₂`. -/
theorem c7_batch_cross_anticommutative_witness :
    _batch_cross ex_u ex_v = Except.map ndNeg (_batch_cross ex_v ex_u) :=
  c7_batch_cross_anticommutative ex_u ex_v 3 1 rfl rfl

/-- C8: composability in exact arithmetic — multiplying the matrix batches and
then applying to a vector batch agrees with applying the two matrix batches in
sequence, for all compatible shapes `(d, d, N)` and `(d, N)`. -/
theorem c8_matmul_matvec_compose (A B v : NDArray) (d N : ℕ)
    (hA : A.shape = [d, d, N]) (hB : B.shape = [d, d, N]) (hv : v.shape = [d, N]) :
    (_batch_matmul A B).bind (fun M => _batch_matvec M v)
      = (_batch_matvec B v).bind (fun w => _batch_matvec A w) := by
  rw [matmul_eq_ok A B d d N d d N d N hA hB (bcDim_self d) (bcDim_self N),
    matvec_eq_ok B v d d N d N d N hB hv (bcDim_self d) (bcDim_self N)]
  show _batch_matvec _ v = _batch_matvec A _
  rw [matvec_eq_ok _ v d d N d N d N rfl hv (bcDim_self d) (bcDim_self N),
    matvec_eq_ok A _ d d N d N d N hA rfl (bcDim_self d) (bcDim_self N)]
  refine congrArg Except.ok (congrArg (NDArray.mk [d, N]) ?_)
  funext idx
  rcases idx with _ | ⟨a, _ | ⟨c, _ | ⟨x, rest⟩⟩⟩
  · rfl
  · rfl
  · show (∑ b ∈ Finset.range d,
        (∑ m ∈ Finset.range d,
          A.data [a, bIdx d m, bIdx N (bIdx N c)]
            * B.data [bIdx d m, bIdx d b, bIdx N (bIdx N c)])
          * v.data [bIdx d b, bIdx N c])
      = ∑ m ∈ Finset.range d,
        A.data [a, bIdx d m, bIdx N c]
          * (∑ b ∈ Finset.range d,
            B.data [bIdx d m, bIdx d b, bIdx N (bIdx N c)]
              * v.data [bIdx d b, bIdx N (bIdx N c)])
    simp only [bIdx_bIdx, Finset.sum_mul, Finset.mul_sum]
    rw [Finset.sum_comm]
    refine Finset.sum_congr rfl fun m hm => Finset.sum_congr rfl fun b hb => ?_
    ring
  · rfl

/-- Witness for C8 at `d = 2, N = 1`. -/
theorem c8_matmul_matvec_compose_witness :
    (_batch_matmul (ones [2, 2, 1]) (ones [2, 2, 1])).bind
        (fun M => _batch_matvec M (ones [2, 1]))
      = (_batch_matvec (ones [2, 2, 1]) (ones [2, 1])).bind
        (fun w => _batch_matvec (ones [2, 2, 1]) w) :=
  c8_matmul_matvec_compose (ones [2, 2, 1]) (ones [2, 2, 1]) (ones [2, 1]) 2 1 rfl rfl rfl

set_option maxRecDepth 1000000 in
set_option maxHeartbeats 4000000 in
/-- C5: for every `d ∈ {2, 3, 4}` the built tensor has shape `(d,)^d`; its
entry at an index tuple with two coinciding indices is 0; its entry at a
permutation tuple of `0..d-1` is that permutation's sign; and swapping any two
positions of an index tuple negates the entry. -/
theorem c5_levi_civita_properties :
    ∀ d ∈ ({2, 3, 4} : Finset ℕ),
      (levi_civita_tensor d).shape = List.replicate d d
      ∧ (∀ g : Fin d → Fin d, ¬ Function.Injective g →
          (levi_civita_tensor d).data (tupleOf d g) = 0)
      ∧ (∀ σ : Equiv.Perm (Fin d),
          (levi_civita_tensor d).data (tupleOf d (fun i => σ i))
            = ((Equiv.Perm.sign σ : ℤ) : ℚ))
      ∧ (∀ g : Fin d → Fin d, ∀ a b : Fin d, a ≠ b →
          (levi_civita_tensor d).data (tupleOf d (fun i => g (Equiv.swap a b i)))
            = -((levi_civita_tensor d).data (tupleOf d g))) := by
  intro d hd
  fin_cases hd <;>
    refine ⟨rfl, ?_, ?_, ?_⟩ <;>
      simp only [lct_data, ← Int.cast_neg, Int.cast_inj, Int.cast_eq_zero] <;>
        decide

/-- Witness for C5 at `d = 3`. -/
theorem c5_levi_civita_properties_witness :
    (levi_civita_tensor 3).shape = List.replicate 3 3
    ∧ (∀ g : Fin 3 → Fin 3, ¬ Function.Injective g →
        (levi_civita_tensor 3).data (tupleOf 3 g) = 0)
    ∧ (∀ σ : Equiv.Perm (Fin 3),
        (levi_civita_tensor 3).data (tupleOf 3 (fun i => σ i))
          = ((Equiv.Perm.sign σ : ℤ) : ℚ))
    ∧ (∀ g : Fin 3 → Fin 3, ∀ a b : Fin 3, a ≠ b →
        (levi_civita_tensor 3).data (tupleOf 3 (fun i => g (Equiv.swap a b i)))
          = -((levi_civita_tensor 3).data (tupleOf 3 g))) :=
  c5_levi_civita_properties 3 (by decide)

end Elastica
